import Mathlib

/-!
Verification development for the cover-image extractor
(`Server/Cover_Image_Generator/Cover_Image_extractor.py`).

The Python program is shallowly embedded below.  Pure string/path helpers
from `posixpath` (`os.path.join`, `os.path.normpath`, `os.path.splitext`,
`os.path.basename`) are translated faithfully; external libraries
(Pillow decoding, `mimetypes`, `textwrap.fill`, the font metrics, the
byte-level text decoder) are modelled as oracle parameters, since the
program only branches on their results.
-/

namespace CoverExtractor

/-- Python membership test `sub in s`: substring containment. -/
def strContains (s sub : String) : Bool :=
  s.toList.tails.any (fun t => sub.toList.isPrefixOf t)

/-- Python `str.lower()` (ASCII range, as relevant to the source's
`name`/`id`/`href` comparisons). -/
def lowerStr (s : String) : String :=
  String.mk (s.toList.map Char.toLower)

/-- Python `str.startswith`. -/
def startsWithStr (s p : String) : Bool :=
  p.toList.isPrefixOf s.toList

/-- Python `str.endswith`. -/
def endsWithStr (s p : String) : Bool :=
  p.toList.isSuffixOf s.toList

/-- Python `str.split(c)` on the character level. -/
def splitChar (c : Char) : List Char → List (List Char)
  | [] => [[]]
  | x :: xs =>
    match splitChar c xs with
    | [] => [[]]
    | h :: t => if x = c then [] :: h :: t else (x :: h) :: t

/-- Python `s.split('\n')`. -/
def splitNL (s : String) : List String :=
  (splitChar '\n' s.toList).map String.mk

/-- Python `s.split('/')`. -/
def splitSlash (s : String) : List String :=
  (splitChar '/' s.toList).map String.mk

/-- Python `sep.join(parts)`. -/
def joinWith (sep : String) : List String → String
  | [] => ""
  | [x] => x
  | x :: xs => x ++ sep ++ joinWith sep xs

/-- Python slicing `s[:n]` (by code points). -/
def pyTake (s : String) (n : Nat) : String :=
  String.mk (s.toList.take n)

/-- Backslash normalization `cover_href.replace('\\', '/')`. -/
def replaceBackslash (s : String) : String :=
  String.mk (s.toList.map (fun c => if c = '\\' then '/' else c))

/-- Index of the last occurrence of `c` in `l` (Python `str.rfind`,
`none` standing for `-1`). -/
def lastIdxOf (c : Char) : List Char → Option Nat
  | [] => none
  | x :: xs =>
    match lastIdxOf c xs with
    | some j => some (j + 1)
    | none => if x = c then some 0 else none

/-- Embeds `posixpath.splitext`: split off the extension at the last dot of the
last path component, provided some non-dot character precedes it within
that component. -/
def splitext (p : String) : String × String :=
  let l := p.toList
  match lastIdxOf '.' l with
  | none => (p, "")
  | some d =>
    let fstart : Nat :=
      match lastIdxOf '/' l with
      | some s => s + 1
      | none => 0
    if fstart ≤ d ∧ ((l.drop fstart).take (d - fstart)).any (fun ch => ch ≠ '.') then
      (String.mk (l.take d), String.mk (l.drop d))
    else
      (p, "")

/-- Embeds `posixpath.basename`: the part after the last slash. -/
def basename (p : String) : String :=
  String.mk ((p.toList.reverse.takeWhile (fun ch => ch ≠ '/')).reverse)

/-- Embeds `posixpath.join` restricted to two arguments, as used in the source. -/
def pathJoin (a b : String) : String :=
  if startsWithStr b "/" then b
  else if a = "" ∨ endsWithStr a "/" then a ++ b
  else a ++ "/" ++ b

/-- One step of `posixpath.normpath`'s component loop. `islashes` records
whether the path is absolute. -/
def normComps (islashes : Bool) : List String → List String → List String
  | acc, [] => acc.reverse
  | acc, c :: rest =>
    if c = "" ∨ c = "." then
      normComps islashes acc rest
    else if c ≠ ".." ∨ (¬ islashes ∧ acc = []) ∨ acc.head? = some ".." then
      normComps islashes (c :: acc) rest
    else
      match acc with
      | [] => normComps islashes [] rest
      | _ :: tl => normComps islashes tl rest

/-- Embeds `posixpath.normpath`: collapse `//`, `.` and `..` segments. -/
def normpath (p : String) : String :=
  if p = "" then "."
  else
    let islashes : Nat :=
      if startsWithStr p "//" ∧ ¬ startsWithStr p "///" then 2
      else if startsWithStr p "/" then 1
      else 0
    let comps := normComps (islashes ≠ 0) [] (splitSlash p)
    let res := String.mk (List.replicate islashes '/') ++ joinWith "/" comps
    if res = "" then "." else res

/-- Resolve an OPF-relative href against the package document's directory,
as the source does at each return site of `_find_cover_href`. -/
def resolveHref (rootfile_dir href : String) : String :=
  normpath (pathJoin rootfile_dir href)

/-- A manifest `<item>` as stored by the source in its `manifest` dict:
`id -> (href, media-type, properties)`; only items with truthy id and
href are stored, so both are non-empty here. -/
structure ManifestEntry where
  iid : String
  href : String
  mtype : String
  props : String
deriving Repr, DecidableEq

/-- A `<meta>` element of the OPF metadata: `attrib.get('name', '')` and
`attrib.get('content')`. -/
structure MetaEntry where
  name : String
  content : Option String
deriving Repr, DecidableEq

/-- Membership test `cover_id in manifest` followed by `manifest[cover_id]`: the first
entry with the given id (ids are unique in a dict). -/
def lookupManifest (manifest : List ManifestEntry) (iid : String) : Option ManifestEntry :=
  manifest.find? (fun e => e.iid = iid)

/-- Step 1 loop of `_find_cover_href`: scan `<meta>` elements for
`name="cover"` (case-insensitively) whose `content` is a manifest id;
return that item's resolved href. -/
def metaCoverLoop (manifest : List ManifestEntry) (rootfile_dir : String) :
    List MetaEntry → Option String
  | [] => none
  | m :: rest =>
    if lowerStr m.name = "cover" then
      match m.content with
      | some cid =>
        if cid ≠ "" then
          match lookupManifest manifest cid with
          | some e => some (resolveHref rootfile_dir e.href)
          | none => metaCoverLoop manifest rootfile_dir rest
        else metaCoverLoop manifest rootfile_dir rest
      | none => metaCoverLoop manifest rootfile_dir rest
    else metaCoverLoop manifest rootfile_dir rest

/-- Condition of step 2: `'cover-image' in props`. -/
def isPropsCover (e : ManifestEntry) : Bool :=
  strContains e.props "cover-image"

/-- Condition of step 3: image media type and `cover` in the lower-cased
id or href. -/
def isNameCover (e : ManifestEntry) : Bool :=
  startsWithStr e.mtype "image/" &&
    (strContains (lowerStr e.iid) "cover" || strContains (lowerStr e.href) "cover")

/-- Condition of step 4: image media type. -/
def isImage (e : ManifestEntry) : Bool :=
  startsWithStr e.mtype "image/"

/-- Step 2 loop: first manifest item whose `properties` contain
`cover-image`. -/
def propsCoverLoop (rootfile_dir : String) : List ManifestEntry → Option String
  | [] => none
  | e :: rest =>
    if isPropsCover e then some (resolveHref rootfile_dir e.href)
    else propsCoverLoop rootfile_dir rest

/-- Step 3 loop: first image-typed item with `cover` in its id or href
(case-insensitively). -/
def nameCoverLoop (rootfile_dir : String) : List ManifestEntry → Option String
  | [] => none
  | e :: rest =>
    if isNameCover e then some (resolveHref rootfile_dir e.href)
    else nameCoverLoop rootfile_dir rest

/-- Step 4 loop: first image-typed item. -/
def firstImageLoop (rootfile_dir : String) : List ManifestEntry → Option String
  | [] => none
  | e :: rest =>
    if isImage e then some (resolveHref rootfile_dir e.href)
    else firstImageLoop rootfile_dir rest

/-- Embeds `_find_cover_href`: the four loops run in order, first return wins.
The OPF XML has already been parsed into `metas` (document order of the
`<metadata>/<meta>` elements) and `manifest` (dict iteration order of the
`<manifest>/<item>` elements). -/
def find_cover_href (metas : List MetaEntry) (manifest : List ManifestEntry)
    (rootfile_dir : String) : Option String :=
  match metaCoverLoop manifest rootfile_dir metas with
  | some r => some r
  | none =>
    match propsCoverLoop rootfile_dir manifest with
    | some r => some r
    | none =>
      match nameCoverLoop rootfile_dir manifest with
      | some r => some r
      | none => firstImageLoop rootfile_dir manifest

/-- Spec-side view of one `<meta>` element in step 1: the href it
contributes, if its name is `cover` and its content is a non-empty
manifest id. -/
def resolveMeta (manifest : List ManifestEntry) (m : MetaEntry) : Option String :=
  if lowerStr m.name = "cover" then
    match m.content with
    | some cid =>
      if cid ≠ "" then (lookupManifest manifest cid).map (fun e => e.href)
      else none
    | none => none
  else none

/-- Spec-side formulation of the step 2-4 priority chain: first
`cover-image`-property item, else first image item named `cover`, else
first image item; the winner's href resolved against the OPF directory. -/
def chainSpec (manifest : List ManifestEntry) (rootfile_dir : String) : Option String :=
  let winner : Option ManifestEntry :=
    match manifest.find? isPropsCover with
    | some e => some e
    | none =>
      match manifest.find? isNameCover with
      | some e => some e
      | none => manifest.find? isImage
  winner.map (fun e => resolveHref rootfile_dir e.href)

/-- Byte strings read from the zip archive. -/
abbrev Bytes := List Nat

/-- A zip archive: named entries in archive order (`namelist` order). -/
structure Archive where
  entries : List (String × Bytes)
deriving Repr, DecidableEq

/-- Embeds `zipfile.ZipFile.read`: the entry with exactly this name, `none`
standing for `KeyError`. -/
def zread (z : Archive) (name : String) : Option Bytes :=
  (z.entries.find? (fun p => p.1 = name)).map (fun p => p.2)

/-- The `mimetypes` stdlib calls the source makes, as oracles.
`guessType` is `mimetypes.guess_type(path)[0]`; `guessExt` is
`mimetypes.guess_extension(t)` for a string `t` (on `None` that stdlib
call raises `AttributeError`, which the embedding models at the call
site). -/
structure MimeOracle where
  guessType : String → Option String
  guessExt : String → Option String

/-- Outcome of the zip/OPF fallback block of `extract_epub_cover`
(lines 166-212): which message is printed and which file, if any, is
written. -/
inductive EpubResult where
  | notFound
  | readFailed (href : String)
  | savedPng (outputFile : String)
  | savedRaw (outputFile : String) (data : Bytes)
  | errorCaught
deriving Repr, DecidableEq

/-- Does this outcome write an output file? -/
def producesOutput : EpubResult → Bool
  | .savedPng _ => true
  | .savedRaw _ _ => true
  | _ => false

/-- Lines 193-210 of `extract_epub_cover`: decode the cover bytes with
Pillow and save as PNG; on decode failure write the raw bytes, with the
extension from the href, else guessed from the media type, else `.img`.
`decode` is the Pillow open/convert/save oracle.  When the href has no
extension, `mimetypes.guess_type` returning `None` makes
`mimetypes.guess_extension(None)` raise `AttributeError`, caught by the
outer handler at line 211 (`errorCaught`). -/
def materializeFallback (input_file : String) (decode : Bytes → Bool) (mo : MimeOracle)
    (cover_href : String) (image_data : Bytes) : EpubResult :=
  if decode image_data then
    .savedPng ((splitext input_file).1 ++ ".png")
  else
    let ext := (splitext cover_href).2
    if ext ≠ "" then
      .savedRaw ((splitext input_file).1 ++ ext) image_data
    else
      match mo.guessType cover_href with
      | none => .errorCaught
      | some t =>
        let e :=
          match mo.guessExt t with
          | some g => if g = "" then ".img" else g
          | none => ".img"
        .savedRaw ((splitext input_file).1 ++ e) image_data

/-- Lines 182-188: on `KeyError`, scan `z.namelist()` in order for the
first entry whose lower-cased name ends with the cover href's lower-cased
basename. -/
def scanBasenameLoop (base_lower : String) : List (String × Bytes) → Option (String × Bytes)
  | [] => none
  | p :: rest =>
    if endsWithStr (lowerStr p.1) base_lower then some p
    else scanBasenameLoop base_lower rest

/-- The zip/OPF fallback block of `extract_epub_cover` (lines 166-212),
entered with the archive open and the OPF already located and parsed into
`metas`/`manifest` with directory `rootfile_dir`. -/
def epub_fallback (input_file : String) (z : Archive) (rootfile_dir : String)
    (metas : List MetaEntry) (manifest : List ManifestEntry)
    (decode : Bytes → Bool) (mo : MimeOracle) : EpubResult :=
  match find_cover_href metas manifest rootfile_dir with
  | none => .notFound
  | some href0 =>
    let cover_href := replaceBackslash href0
    match zread z cover_href with
    | some image_data => materializeFallback input_file decode mo cover_href image_data
    | none =>
      match scanBasenameLoop (lowerStr (basename cover_href)) z.entries with
      | some p => materializeFallback input_file decode mo p.1 p.2
      | none => .readFailed cover_href

/-- Lines 139-159 of `extract_epub_cover` (EbookLib path), after cover
bytes `data` were obtained from the item: save as PNG, or on decode
failure write the raw bytes with the extension from the item's resolved
name (`file_name`/`get_name()`/`id`, already resolved to `itemName`),
else guessed from its `media_type` string, else `.img`. -/
def ebooklibWrite (input_file : String) (decode : Bytes → Bool) (mo : MimeOracle)
    (itemName media_type : String) (data : Bytes) : EpubResult :=
  if decode data then
    .savedPng ((splitext input_file).1 ++ ".png")
  else
    let ext0 := (splitext itemName).2
    let ext :=
      if ext0 = "" then
        match mo.guessExt media_type with
        | some g => if g = "" then ".img" else g
        | none => ".img"
      else ext0
    .savedRaw ((splitext input_file).1 ++ ext) data

/-- Spec-side extension formula for the raw-bytes write (claim C4's
wording): the extension of the name, else the (truthy) mime guess, else
`.img`. -/
def rawWriteExt (name : String) (guessed : Option String) : String :=
  let ext := (splitext name).2
  if ext = "" then
    match guessed with
    | some g => if g = "" then ".img" else g
    | none => ".img"
  else ext

/-- Drop a final empty component: `"a\nb\n".split` keeps no empty last
line under Python `readline`/`splitlines` semantics. -/
def dropFinalEmpty (l : List String) : List String :=
  match l.getLast? with
  | some t => if t = "" then l.dropLast else l
  | none => l

/-- The `readline` loop of `extract_txt_cover` (lines 225-230) applied to
the decoded file text: at most `max_lines` lines from the start, each
with its trailing newline stripped. -/
def readLines (text : String) (max_lines : Nat) : List String :=
  (dropFinalEmpty (splitNL text)).take max_lines

/-- Python `str.splitlines()` on `\n`-separated text (the only terminator
`textwrap.fill` emits). -/
def splitlinesNL (s : String) : List String :=
  dropFinalEmpty (splitNL s)

/-- Python whitespace for no-argument `str.rstrip()` (ASCII range). -/
def isPyWS (c : Char) : Bool :=
  c = ' ' || c = '\t' || c = '\n' || c = '\r' || c = Char.ofNat 11 || c = Char.ofNat 12

/-- Python `str.rstrip()`: drop trailing whitespace. -/
def rstripPy (s : String) : String :=
  String.mk ((s.toList.reverse.dropWhile isPyWS).reverse)

/-- Pillow font measurement for the reference glyph `'A'` at the default
font (lines 250-256), as an oracle: `avgCharW` may be `0`, which the
source replaces by `7` via `avg_char_w or 7`. -/
structure FontMetrics where
  avgCharW : Nat
  charH : Nat

/-- Outcome of `extract_txt_cover`: which file is written, the pixel
dimensions of the image handed to `img.save`, and the (possibly
truncated) text that was rendered. -/
inductive TxtResult where
  | empty
  | saved (outputFile : String) (width height : Nat) (rendered : String)
deriving Repr, DecidableEq

/-- Embeds `extract_txt_cover` (lines 216-276) on the decoded file text
(`errors='ignore'` decoding is upstream of this function).  `wrapFill`
is the `textwrap.fill` oracle. -/
def extract_txt_cover (input_file : String) (fileText : String)
    (fm : FontMetrics) (wrapFill : String → Nat → String)
    (max_lines max_chars : Nat) : TxtResult :=
  let lines := readLines fileText max_lines
  if lines = [] then .empty
  else
    let text0 := joinWith "\n" lines
    let text := if text0.length > max_chars then rstripPy (pyTake text0 max_chars) ++ "..." else text0
    let width := 1200
    let margin := 40
    let avg_char_w := if fm.avgCharW = 0 then 7 else fm.avgCharW
    let chars_per_line := max 40 ((width - 2 * margin) / avg_char_w)
    let wrapped := wrapFill text chars_per_line
    let wlines := splitlinesNL wrapped
    let line_height := fm.charH + 6
    let height := margin * 2 + line_height * max 1 wlines.length
    .saved ((splitext input_file).1 ++ ".png") width height text

/-- Per-file outcome of the main loop. -/
inductive Outcome where
  | pdfSaved (outputFile : String)
  | epubDone (r : EpubResult)
  | txtDone (r : TxtResult)
  | unsupportedFile (msg : String)
deriving Repr, DecidableEq

/-- Line 320: the message printed for an unsupported extension. -/
def unsupportedMsg (input_file : String) : String :=
  "Unsupported file type for " ++ input_file ++ "; supported: .pdf, .epub"

/-- The per-file loop (lines 282-320).  `pdfRun` is the unguarded PDF
branch body (`PdfReader`/`pages[0]`/`convert_from_bytes`/`save`): `.ok`
on success, `.error` for a raised exception, which nothing catches, so it
aborts the loop.  `epubRun`/`txtRun` are the fully guarded
`extract_epub_cover`/`extract_txt_cover` calls, which never raise.
Returns the outcomes of the files actually processed and the uncaught
exception, if one was raised. -/
def runFiles (pdfRun : String → Except String Unit)
    (epubRun : String → EpubResult) (txtRun : String → TxtResult) :
    List String → List Outcome × Option String
  | [] => ([], none)
  | f :: rest =>
    let ext := lowerStr (splitext f).2
    if ext = ".pdf" then
      match pdfRun f with
      | .ok _ =>
        let r := runFiles pdfRun epubRun txtRun rest
        (.pdfSaved ((splitext f).1 ++ ".png") :: r.1, r.2)
      | .error e => ([], some e)
    else if ext = ".epub" then
      let r := runFiles pdfRun epubRun txtRun rest
      (.epubDone (epubRun f) :: r.1, r.2)
    else if ext = ".txt" then
      let r := runFiles pdfRun epubRun txtRun rest
      (.txtDone (txtRun f) :: r.1, r.2)
    else
      let r := runFiles pdfRun epubRun txtRun rest
      (.unsupportedFile (unsupportedMsg f) :: r.1, r.2)

/-- The parsed command line (lines 15-26): the positional input files and
the optional `--type` hint. -/
structure Args where
  input_files : List String
  type : Option String
deriving Repr, DecidableEq

/-- The whole program after argument parsing: the per-file loop over
`args.input_files`.  `args.type` is parsed but never read. -/
def mainRun (pdfRun : String → Except String Unit)
    (epubRun : String → EpubResult) (txtRun : String → TxtResult)
    (a : Args) : List Outcome × Option String :=
  runFiles pdfRun epubRun txtRun a.input_files

/-- Trivial per-file oracles, used to evaluate the loop on concrete
inputs. -/
def pdfStub : String → Except String Unit := fun _ => .ok ()

/-- See `pdfStub`. -/
def epubStub : String → EpubResult := fun _ => .notFound

/-- See `pdfStub`. -/
def txtStub : String → TxtResult := fun _ => .empty

/-- Concrete archive for the raw-write counterexample: the stored cover
image has no file extension. -/
def cexArchive : Archive := ⟨[("OEBPS/images/cover", [1, 2, 3])]⟩

/-- Concrete manifest for the raw-write counterexample. -/
def cexManifest : List ManifestEntry := [⟨"cvr", "images/cover", "image/x-raw", ""⟩]

/-- Behaviour of `mimetypes` on the counterexample href: `guess_type` of an
extension-less path is `None` (and `guess_extension(None)` raises). -/
def cexMime : MimeOracle := ⟨fun _ => none, fun _ => none⟩

/-- A PDF-branch oracle that raises on every file. -/
def pdfFailStub : String → Except String Unit := fun _ => .error "boom"

end CoverExtractor

namespace CoverExtractor

theorem metaCoverLoop_cons (manifest : List ManifestEntry) (dir : String)
    (m : MetaEntry) (l : List MetaEntry) :
    metaCoverLoop manifest dir (m :: l) =
      match resolveMeta manifest m with
      | some h => some (resolveHref dir h)
      | none => metaCoverLoop manifest dir l := by
  by_cases hname : lowerStr m.name = "cover"
  · cases hc : m.content with
    | none => simp [metaCoverLoop, resolveMeta, hname, hc]
    | some cid =>
      by_cases hcid : cid = ""
      · simp [metaCoverLoop, resolveMeta, hname, hc, hcid]
      · cases hl : lookupManifest manifest cid with
        | none => simp [metaCoverLoop, resolveMeta, hname, hc, hcid, hl]
        | some e => simp [metaCoverLoop, resolveMeta, hname, hc, hcid, hl]
  · simp [metaCoverLoop, resolveMeta, hname]

theorem metaCoverLoop_append_none (manifest : List ManifestEntry) (dir : String)
    (pre rest : List MetaEntry)
    (h : ∀ m' ∈ pre, resolveMeta manifest m' = none) :
    metaCoverLoop manifest dir (pre ++ rest) = metaCoverLoop manifest dir rest := by
  induction pre with
  | nil => rfl
  | cons q qs ih =>
    rw [List.cons_append, metaCoverLoop_cons, h q (List.mem_cons_self q qs)]
    exact ih (fun m' hm' => h m' (List.mem_cons_of_mem q hm'))

theorem metaCoverLoop_eq_none (manifest : List ManifestEntry) (dir : String)
    (metas : List MetaEntry)
    (h : ∀ m' ∈ metas, resolveMeta manifest m' = none) :
    metaCoverLoop manifest dir metas = none := by
  have := metaCoverLoop_append_none manifest dir metas [] h
  simpa using this

theorem propsCoverLoop_eq_find (dir : String) (l : List ManifestEntry) :
    propsCoverLoop dir l = (l.find? isPropsCover).map (fun e => resolveHref dir e.href) := by
  induction l with
  | nil => rfl
  | cons e rest ih => cases h : isPropsCover e <;> simp [propsCoverLoop, h, ih]

theorem nameCoverLoop_eq_find (dir : String) (l : List ManifestEntry) :
    nameCoverLoop dir l = (l.find? isNameCover).map (fun e => resolveHref dir e.href) := by
  induction l with
  | nil => rfl
  | cons e rest ih => cases h : isNameCover e <;> simp [nameCoverLoop, h, ih]

theorem firstImageLoop_eq_find (dir : String) (l : List ManifestEntry) :
    firstImageLoop dir l = (l.find? isImage).map (fun e => resolveHref dir e.href) := by
  induction l with
  | nil => rfl
  | cons e rest ih => cases h : isImage e <;> simp [firstImageLoop, h, ih]

theorem scanBasenameLoop_eq_find (b : String) (l : List (String × Bytes)) :
    scanBasenameLoop b l = l.find? (fun p => endsWithStr (lowerStr p.1) b) := by
  induction l with
  | nil => rfl
  | cons p rest ih => cases h : endsWithStr (lowerStr p.1) b <;> simp [scanBasenameLoop, h, ih]

/-- C1: if the metadata holds a `meta` whose name is `cover`
case-insensitively and whose content `X` is the id of a manifest item
(and no earlier `meta` already resolved that way), `_find_cover_href`
returns that item's href joined to the package document's directory and
normalized, whatever the other manifest entries are. -/
theorem find_cover_href_meta_cover
    (metas pre post : List MetaEntry) (m : MetaEntry)
    (manifest : List ManifestEntry) (rootfile_dir X : String) (e : ManifestEntry)
    (hsplit : metas = pre ++ m :: post)
    (hpre : ∀ m' ∈ pre, resolveMeta manifest m' = none)
    (hname : lowerStr m.name = "cover")
    (hcontent : m.content = some X)
    (hX : X ≠ "")
    (hlook : lookupManifest manifest X = some e) :
    find_cover_href metas manifest rootfile_dir =
      some (normpath (pathJoin rootfile_dir e.href)) := by
  subst hsplit
  have hm : resolveMeta manifest m = some e.href := by
    simp [resolveMeta, hname, hcontent, hX, hlook]
  have hloop : metaCoverLoop manifest rootfile_dir (pre ++ m :: post) =
      some (resolveHref rootfile_dir e.href) := by
    rw [metaCoverLoop_append_none manifest rootfile_dir pre (m :: post) hpre,
      metaCoverLoop_cons, hm]
  unfold find_cover_href
  rw [hloop]
  rfl

/-- Witness for C1 at a concrete package document. -/
theorem find_cover_href_meta_cover_witness :
    find_cover_href
      [⟨"Cover", some "cvr"⟩]
      [⟨"css", "style.css", "text/css", ""⟩, ⟨"cvr", "images/cover.jpg", "image/jpeg", ""⟩]
      "OEBPS" = some "OEBPS/images/cover.jpg" := by
  have h := find_cover_href_meta_cover
    [⟨"Cover", some "cvr"⟩] [] [] ⟨"Cover", some "cvr"⟩
    [⟨"css", "style.css", "text/css", ""⟩, ⟨"cvr", "images/cover.jpg", "image/jpeg", ""⟩]
    "OEBPS" "cvr" ⟨"cvr", "images/cover.jpg", "image/jpeg", ""⟩
    rfl (by simp) (by decide) rfl (by decide) (by decide)
  simpa using h

/-- C2: when no `meta name="cover"` entry resolves to a manifest id,
`_find_cover_href` follows the strict first-match chain: a
`cover-image`-property item, else an image item with `cover` in its id
or href, else the first image item, the winner's href resolved against
the package directory (`chainSpec`). -/
theorem find_cover_href_chain
    (metas : List MetaEntry) (manifest : List ManifestEntry) (rootfile_dir : String)
    (hmeta : ∀ m' ∈ metas, resolveMeta manifest m' = none) :
    find_cover_href metas manifest rootfile_dir = chainSpec manifest rootfile_dir := by
  unfold find_cover_href chainSpec
  rw [metaCoverLoop_eq_none manifest rootfile_dir metas hmeta,
    propsCoverLoop_eq_find, nameCoverLoop_eq_find, firstImageLoop_eq_find]
  cases manifest.find? isPropsCover <;>
    cases manifest.find? isNameCover <;>
      cases manifest.find? isImage <;> simp

/-- Witness for C2: no cover meta, one `cover-image` property item ahead
of other images. -/
theorem find_cover_href_chain_witness :
    find_cover_href
      [⟨"generator", some "x"⟩]
      [⟨"img0", "pic.png", "image/png", ""⟩, ⟨"c1", "c.jpg", "image/jpeg", "cover-image"⟩]
      "OEBPS" =
      chainSpec
        [⟨"img0", "pic.png", "image/png", ""⟩, ⟨"c1", "c.jpg", "image/jpeg", "cover-image"⟩]
        "OEBPS" := by
  exact find_cover_href_chain
    [⟨"generator", some "x"⟩]
    [⟨"img0", "pic.png", "image/png", ""⟩, ⟨"c1", "c.jpg", "image/jpeg", "cover-image"⟩]
    "OEBPS" (by decide)

end CoverExtractor

namespace CoverExtractor

theorem isNameCover_eq_false_of_not_image (e : ManifestEntry)
    (h : isImage e = false) : isNameCover e = false := by
  unfold isImage at h
  simp [isNameCover, h]

/-- C3: with no resolving cover meta, no `cover-image` property item and
zero image-typed manifest items, `_find_cover_href` reports not-found;
the zip/OPF fallback of `extract_epub_cover` then prints its non-fatal
message and returns without writing an output file, and the per-file
loop goes on to the remaining inputs. -/
theorem no_image_not_found
    (metas : List MetaEntry) (manifest : List ManifestEntry)
    (input_file rootfile_dir : String) (z : Archive)
    (decode : Bytes → Bool) (mo : MimeOracle)
    (hmeta : ∀ m' ∈ metas, resolveMeta manifest m' = none)
    (hprops : ∀ e ∈ manifest, isPropsCover e = false)
    (himg : ∀ e ∈ manifest, isImage e = false) :
    find_cover_href metas manifest rootfile_dir = none ∧
    epub_fallback input_file z rootfile_dir metas manifest decode mo = .notFound ∧
    producesOutput (epub_fallback input_file z rootfile_dir metas manifest decode mo) = false ∧
    (∀ (pdfRun : String → Except String Unit) (epubRun : String → EpubResult)
        (txtRun : String → TxtResult) (f : String) (rest : List String),
      lowerStr (splitext f).2 = ".epub" →
      runFiles pdfRun epubRun txtRun (f :: rest) =
        (.epubDone (epubRun f) :: (runFiles pdfRun epubRun txtRun rest).1,
         (runFiles pdfRun epubRun txtRun rest).2)) := by
  have hfind : find_cover_href metas manifest rootfile_dir = none := by
    rw [find_cover_href_chain metas manifest rootfile_dir hmeta]
    unfold chainSpec
    rw [List.find?_eq_none.mpr (fun e he => by simp [hprops e he]),
      List.find?_eq_none.mpr (fun e he => by
        simp [isNameCover_eq_false_of_not_image e (himg e he)]),
      List.find?_eq_none.mpr (fun e he => by simp [himg e he])]
    rfl
  have h2 : epub_fallback input_file z rootfile_dir metas manifest decode mo = .notFound := by
    unfold epub_fallback
    rw [hfind]
  refine ⟨hfind, h2, by rw [h2]; rfl, ?_⟩
  intro pdfRun epubRun txtRun f rest hext
  simp [runFiles, hext]

/-- Witness for C3: a manifest of one stylesheet, no covers. -/
theorem no_image_not_found_witness :
    find_cover_href [] [⟨"css", "style.css", "text/css", ""⟩] "OEBPS" = none ∧
    epub_fallback "b.epub" ⟨[]⟩ "OEBPS" [] [⟨"css", "style.css", "text/css", ""⟩]
      (fun _ => true) cexMime = .notFound := by
  have h := no_image_not_found [] [⟨"css", "style.css", "text/css", ""⟩]
    "b.epub" "OEBPS" ⟨[]⟩ (fun _ => true) cexMime
    (by simp) (by decide) (by decide)
  exact ⟨h.1, h.2.1⟩

/-- C7: two runs that differ only in the value or presence of the parsed
`--type` flag are identical: the flag is never consulted and dispatch
reads only each filename's lower-cased extension. -/
theorem type_flag_not_consulted
    (pdfRun : String → Except String Unit) (epubRun : String → EpubResult)
    (txtRun : String → TxtResult) (files : List String) (t1 t2 : Option String) :
    mainRun pdfRun epubRun txtRun ⟨files, t1⟩ = mainRun pdfRun epubRun txtRun ⟨files, t2⟩ :=
  rfl

/-- C8, evaluated at the failing input `book.docx`: the loop writes no
output and continues, but the printed message names only `.pdf` and
`.epub` — the substring `.txt` does not occur in it, although `.txt`
files are supported. -/
theorem unsupported_message_at_docx :
    runFiles pdfStub epubStub txtStub ["book.docx"] =
      ([.unsupportedFile "Unsupported file type for book.docx; supported: .pdf, .epub"], none) ∧
    strContains (unsupportedMsg "book.docx") "book.docx" = true ∧
    strContains (unsupportedMsg "book.docx") ".txt" = false := by
  refine ⟨?_, ?_, ?_⟩ <;> decide

/-- C9: the PDF branch catches nothing — an exception raised there ends
the whole run, the remaining files are not processed; whereas when every
PDF file succeeds no uncaught exception can arise (EPUB and TXT branches
are fully guarded). -/
theorem pdf_branch_unguarded
    (pdfRun : String → Except String Unit) (epubRun : String → EpubResult)
    (txtRun : String → TxtResult) (f : String) (rest : List String) (e : String)
    (hext : lowerStr (splitext f).2 = ".pdf")
    (herr : pdfRun f = .error e) :
    runFiles pdfRun epubRun txtRun (f :: rest) = ([], some e) ∧
    (∀ files : List String,
      (∀ g ∈ files, lowerStr (splitext g).2 = ".pdf" → pdfRun g = .ok ()) →
      (runFiles pdfRun epubRun txtRun files).2 = none) := by
  constructor
  · simp [runFiles, hext, herr]
  · intro files hok
    induction files with
    | nil => rfl
    | cons g gs ih =>
      have ih' := ih (fun g' hg' hp => hok g' (List.mem_cons_of_mem g hg') hp)
      by_cases hg : lowerStr (splitext g).2 = ".pdf"
      · have hokg := hok g (List.mem_cons_self g gs) hg
        simp [runFiles, hg, hokg, ih']
      · by_cases he : lowerStr (splitext g).2 = ".epub"
        · simp [runFiles, he, ih']
        · by_cases ht : lowerStr (splitext g).2 = ".txt"
          · simp [runFiles, ht, ih']
          · simp [runFiles, hg, he, ht, ih']

/-- Witness for C9: a raising PDF oracle aborts before the second file. -/
theorem pdf_branch_unguarded_witness :
    runFiles pdfFailStub epubStub txtStub ["a.pdf", "b.txt"] = ([], some "boom") :=
  (pdf_branch_unguarded pdfFailStub epubStub txtStub "a.pdf" ["b.txt"] "boom"
    (by decide) rfl).1

end CoverExtractor

namespace CoverExtractor

/-- C4 as stated is false: in the zip/OPF fallback, undecodable cover
bytes stored under an extension-less href make `mimetypes.guess_type`
return `None`, so `mimetypes.guess_extension(None)` raises and the
per-file handler swallows it — no raw-bytes file (indeed no output file
at all) is written, although cover bytes were obtained. -/
theorem raw_write_counterexample :
    epub_fallback "book.epub" cexArchive "OEBPS" [] cexManifest
      (fun _ => false) cexMime = .errorCaught ∧
    producesOutput
      (epub_fallback "book.epub" cexArchive "OEBPS" [] cexManifest
        (fun _ => false) cexMime) = false := by
  refine ⟨?_, ?_⟩ <;> decide

/-- C4 amended: when decoding fails, the raw bytes are written unmodified
with the extension from the href/item name, else the media-type guess,
else `.img` — unconditionally on the EbookLib path, and on the zip/OPF
fallback path provided the href has an extension or the media type can
be guessed (otherwise the guess step itself raises and is caught, and no
file is written); whenever decoding succeeds a PNG is always written. -/
theorem raw_write_amended
    (input_file itemName media_type cover_href : String)
    (decode : Bytes → Bool) (mo : MimeOracle) (data : Bytes)
    (hdec : decode data = false) :
    ebooklibWrite input_file decode mo itemName media_type data =
      .savedRaw ((splitext input_file).1 ++ rawWriteExt itemName (mo.guessExt media_type)) data ∧
    producesOutput (ebooklibWrite input_file decode mo itemName media_type data) = true ∧
    ((splitext cover_href).2 ≠ "" ∨ (mo.guessType cover_href).isSome →
      materializeFallback input_file decode mo cover_href data =
        .savedRaw ((splitext input_file).1 ++
          rawWriteExt cover_href ((mo.guessType cover_href).bind mo.guessExt)) data ∧
      producesOutput (materializeFallback input_file decode mo cover_href data) = true) ∧
    (∀ d : Bytes, decode d = true →
      materializeFallback input_file decode mo cover_href d =
        .savedPng ((splitext input_file).1 ++ ".png")) := by
  have hebook : ebooklibWrite input_file decode mo itemName media_type data =
      .savedRaw ((splitext input_file).1 ++ rawWriteExt itemName (mo.guessExt media_type)) data := by
    unfold ebooklibWrite rawWriteExt
    rw [hdec]
    by_cases hx : (splitext itemName).2 = ""
    · cases hg : mo.guessExt media_type <;> simp [hx, hg]
    · simp [hx]
  refine ⟨hebook, by rw [hebook]; rfl, ?_, ?_⟩
  · intro hcase
    have hfall : materializeFallback input_file decode mo cover_href data =
        .savedRaw ((splitext input_file).1 ++
          rawWriteExt cover_href ((mo.guessType cover_href).bind mo.guessExt)) data := by
      unfold materializeFallback rawWriteExt
      rw [hdec]
      by_cases hx : (splitext cover_href).2 = ""
      · rcases hcase with hne | hsome
        · exact absurd hx hne
        · rcases Option.isSome_iff_exists.mp hsome with ⟨t, ht⟩
          cases hg : mo.guessExt t <;> simp [hx, ht, hg, Option.bind]
      · simp [hx]
    exact ⟨hfall, by rw [hfall]; rfl⟩
  · intro d hd
    unfold materializeFallback
    rw [hd]
    simp

/-- Witness for C4's amended statement: undecodable JPEG bytes are
rewritten raw as `book.jpg` on both paths. -/
theorem raw_write_amended_witness :
    ebooklibWrite "book.epub" (fun _ => false) cexMime "images/cover.jpg" "image/jpeg" [7] =
      .savedRaw "book.jpg" [7] ∧
    materializeFallback "book.epub" (fun _ => false) cexMime "OEBPS/images/cover.jpg" [7] =
      .savedRaw "book.jpg" [7] := by
  have h := raw_write_amended "book.epub" "images/cover.jpg" "image/jpeg"
    "OEBPS/images/cover.jpg" (fun _ => false) cexMime [7] rfl
  refine ⟨?_, ?_⟩
  · have h1 := h.1
    simpa using h1
  · have h3 := (h.2.2.1 (Or.inl (by decide))).1
    simpa using h3

/-- C10: when the resolved cover href names no archive entry exactly, the
fallback scans the entry list in order and continues with the first entry
whose lower-cased name ends with the href's lower-cased basename; only
when no entry matches does it print its non-fatal message and write no
output file. -/
theorem basename_rescue
    (input_file rootfile_dir href0 : String) (z : Archive)
    (metas : List MetaEntry) (manifest : List ManifestEntry)
    (decode : Bytes → Bool) (mo : MimeOracle)
    (hfind : find_cover_href metas manifest rootfile_dir = some href0)
    (hmiss : zread z (replaceBackslash href0) = none) :
    (∀ p : String × Bytes,
      z.entries.find?
        (fun q => endsWithStr (lowerStr q.1) (lowerStr (basename (replaceBackslash href0)))) =
          some p →
      epub_fallback input_file z rootfile_dir metas manifest decode mo =
        materializeFallback input_file decode mo p.1 p.2) ∧
    (z.entries.find?
        (fun q => endsWithStr (lowerStr q.1) (lowerStr (basename (replaceBackslash href0)))) =
          none →
      epub_fallback input_file z rootfile_dir metas manifest decode mo =
        .readFailed (replaceBackslash href0) ∧
      producesOutput (epub_fallback input_file z rootfile_dir metas manifest decode mo) = false) := by
  have hbase : epub_fallback input_file z rootfile_dir metas manifest decode mo =
      match scanBasenameLoop (lowerStr (basename (replaceBackslash href0))) z.entries with
      | some p => materializeFallback input_file decode mo p.1 p.2
      | none => .readFailed (replaceBackslash href0) := by
    unfold epub_fallback
    rw [hfind]
    simp only [hmiss]
  constructor
  · intro p hp
    rw [hbase, scanBasenameLoop_eq_find, hp]
  · intro hnone
    have h2 : epub_fallback input_file z rootfile_dir metas manifest decode mo =
        .readFailed (replaceBackslash href0) := by
      rw [hbase, scanBasenameLoop_eq_find, hnone]
    exact ⟨h2, by rw [h2]; rfl⟩

/-- Witness for C10: href resolves to `OEBPS/images/cover.jpg`, the
archive stores `Images/Cover.JPG`; the scan finds it. -/
theorem basename_rescue_witness :
    epub_fallback "b.epub" ⟨[("mimetype", [1]), ("Images/Cover.JPG", [9])]⟩ "OEBPS"
      [⟨"cover", some "cvr"⟩] [⟨"cvr", "images/cover.jpg", "image/jpeg", ""⟩]
      (fun _ => true) cexMime =
      materializeFallback "b.epub" (fun _ => true) cexMime "Images/Cover.JPG" [9] := by
  have h := (basename_rescue "b.epub" "OEBPS" "OEBPS/images/cover.jpg"
    ⟨[("mimetype", [1]), ("Images/Cover.JPG", [9])]⟩
    [⟨"cover", some "cvr"⟩] [⟨"cvr", "images/cover.jpg", "image/jpeg", ""⟩]
    (fun _ => true) cexMime (by decide) (by decide)).1
    ("Images/Cover.JPG", [9]) (by decide)
  simpa using h

end CoverExtractor

namespace CoverExtractor

theorem pyTake_length_le (s : String) (n : Nat) : (pyTake s n).length ≤ n := by
  simp [pyTake, String.length_mk, List.length_take]

theorem length_dropWhile_le_self (p : Char → Bool) (l : List Char) :
    (l.dropWhile p).length ≤ l.length := by
  induction l with
  | nil => simp
  | cons x xs ih =>
    cases h : p x <;> simp [List.dropWhile, h]
    omega

theorem rstripPy_length_le (s : String) : (rstripPy s).length ≤ s.length := by
  simp only [rstripPy, String.length_mk, List.length_reverse]
  calc (s.toList.reverse.dropWhile isPyWS).length
      ≤ s.toList.reverse.length := length_dropWhile_le_self isPyWS s.toList.reverse
    _ = s.toList.length := by rw [List.length_reverse]
    _ = s.length := rfl

/-- C5: the TXT path reads at most 20 lines from the start of the
(permissively decoded) file, joins them with newlines, and when the
joined text is longer than 2000 characters the rendered text is that
text cut at 2000 characters (then right-stripped, hence at or before the
cap) followed by the ellipsis marker. -/
theorem txt_truncation
    (input_file fileText : String) (fm : FontMetrics) (wrapFill : String → Nat → String)
    (hlong : (joinWith "\n" (readLines fileText 20)).length > 2000) :
    readLines fileText 20 = (dropFinalEmpty (splitNL fileText)).take 20 ∧
    (readLines fileText 20).length ≤ 20 ∧
    (∃ out w h core,
      extract_txt_cover input_file fileText fm wrapFill 20 2000 =
        .saved out w h (core ++ "...") ∧
      core = rstripPy (pyTake (joinWith "\n" (readLines fileText 20)) 2000) ∧
      core.length ≤ 2000) := by
  have hne : readLines fileText 20 ≠ [] := by
    intro h0
    rw [h0] at hlong
    simp [joinWith] at hlong
  refine ⟨rfl, List.length_take_le 20 _, ?_⟩
  simp only [extract_txt_cover]
  rw [if_neg hne, if_pos hlong]
  exact ⟨(splitext input_file).1 ++ ".png", 1200, _,
    rstripPy (pyTake (joinWith "\n" (readLines fileText 20)) 2000), rfl, rfl,
    le_trans (rstripPy_length_le _) (pyTake_length_le _ 2000)⟩

theorem splitChar_eq_single (c : Char) (l : List Char) (h : ∀ x ∈ l, x ≠ c) :
    splitChar c l = [l] := by
  induction l with
  | nil => rfl
  | cons x xs ih =>
    rw [splitChar, ih (fun y hy => h y (List.mem_cons_of_mem x hy))]
    simp [h x (List.mem_cons_self x xs)]

/-- Witness for C5 on a 2100-character single-line file. -/
theorem txt_truncation_witness :
    (joinWith "\n" (readLines (String.mk (List.replicate 2100 'a')) 20)).length > 2000 ∧
    (∃ out w h core,
      extract_txt_cover "notes.txt" (String.mk (List.replicate 2100 'a'))
        ⟨7, 11⟩ (fun s _ => s) 20 2000 = .saved out w h (core ++ "...") ∧
      core = rstripPy (pyTake (joinWith "\n"
        (readLines (String.mk (List.replicate 2100 'a')) 20)) 2000) ∧
      core.length ≤ 2000) := by
  have hlen : (String.mk (List.replicate 2100 'a')).length = 2100 := by
    rw [String.length_mk, List.length_replicate]
  have hne : String.mk (List.replicate 2100 'a') ≠ "" := by
    intro h0
    have h1 := congrArg String.length h0
    rw [hlen] at h1
    exact absurd h1 (by decide)
  have hdrop : dropFinalEmpty [String.mk (List.replicate 2100 'a')] =
      [String.mk (List.replicate 2100 'a')] := by
    unfold dropFinalEmpty
    simp only [List.getLast?_singleton]
    rw [if_neg hne]
  have hlines : readLines (String.mk (List.replicate 2100 'a')) 20 =
      [String.mk (List.replicate 2100 'a')] := by
    unfold readLines splitNL
    rw [show (String.mk (List.replicate 2100 'a')).toList = List.replicate 2100 'a' from rfl,
      splitChar_eq_single '\n' _ (fun x hx => by rw [List.eq_of_mem_replicate hx]; decide)]
    rw [show [List.replicate 2100 'a'].map String.mk =
      [String.mk (List.replicate 2100 'a')] from rfl, hdrop]
    rw [List.take_of_length_le (by simp)]
  have hlong : (joinWith "\n" (readLines (String.mk (List.replicate 2100 'a')) 20)).length
      > 2000 := by
    rw [hlines,
      show joinWith "\n" [String.mk (List.replicate 2100 'a')] =
        String.mk (List.replicate 2100 'a') from rfl, hlen]
    decide
  exact ⟨hlong, (txt_truncation "notes.txt" (String.mk (List.replicate 2100 'a'))
    ⟨7, 11⟩ (fun s _ => s) hlong).2.2⟩

/-- C6: for non-empty TXT input the image handed to `img.save` is 1200
pixels wide and `2*40 + (char_h + 6) * max 1 L` pixels high, where `L`
counts the lines of the rendered text wrapped at
`max 40 ((1200 - 2*40) / avg_char_w)` characters (`avg_char_w` being the
measured glyph width, with 0 replaced by 7). -/
theorem txt_dimensions
    (input_file fileText : String) (fm : FontMetrics) (wrapFill : String → Nat → String)
    (out : String) (w h : Nat) (rendered : String)
    (hsaved : extract_txt_cover input_file fileText fm wrapFill 20 2000 =
      .saved out w h rendered) :
    w = 1200 ∧
    h = 2 * 40 + (fm.charH + 6) *
      max 1 (splitlinesNL (wrapFill rendered
        (max 40 ((1200 - 2 * 40) / (if fm.avgCharW = 0 then 7 else fm.avgCharW))))).length := by
  unfold extract_txt_cover at hsaved
  by_cases hne : readLines fileText 20 = []
  · rw [if_pos hne] at hsaved
    exact absurd hsaved (by simp)
  · rw [if_neg hne] at hsaved
    simp only [TxtResult.saved.injEq] at hsaved
    obtain ⟨ho, hw, hh, hr⟩ := hsaved
    refine ⟨hw.symm, ?_⟩
    rw [← hh, ← hr]

/-- Witness for C6: one line `Hello world`, glyph metrics 7×11, identity
wrap: a 1200 × 97 canvas. -/
theorem txt_dimensions_witness :
    (1200 : Nat) = 1200 ∧
    (97 : Nat) = 2 * 40 + (11 + 6) *
      max 1 (splitlinesNL ((fun (s : String) (_ : Nat) => s) "Hello world"
        (max 40 ((1200 - 2 * 40) / (if (7 : Nat) = 0 then 7 else 7))))).length :=
  txt_dimensions "notes.txt" "Hello world" ⟨7, 11⟩ (fun s _ => s)
    "notes.png" 1200 97 "Hello world" (by decide)

end CoverExtractor
